import Mathlib

/-!
Verification of the Extism C/C++ plugin development kit (PDK).

This file gives a shallow embedding of the PDK sources:

* `src/cpp-pdk/extism_pdk.h` — the C++ wrapper layer (`Memory`, `Host`,
  `HttpRequest`/`HttpResponse`);
* `src/cpp-pdk/hello_plugin.cpp` — the C++ example plugin;
* `src/cpp-pdk/hello_plugin.c` — the C example plugin built on the same header;
* `src/c-pdk/hello_plugin.c` — the standalone C example plugin.

Strings and byte buffers are modelled as `List Char` / `List Nat`; the host
runtime (which is external to the repository) is modelled from the spec as an
explicit state: a name-to-bytes variable store, a block store for handles, and
an abstract allocator handing out fresh non-zero offsets.
-/

set_option maxHeartbeats 1000000
set_option maxRecDepth 8000

namespace Extism

/-! ## String searching (std::string::find / strstr / strchr) -/

/-- Scan of a list for the first index (counted from `i`) at which `pat`
occurs, i.e. the common loop underlying `std::string::find`, `strstr` and
`strchr` in the plugin sources. -/
def findSubAux (pat : List Char) : List Char → Nat → Option Nat
  | [], i => if pat.isPrefixOf [] then some i else none
  | c :: t, i => if pat.isPrefixOf (c :: t) then some i else findSubAux pat t (i + 1)

/-- Model of `std::string::find(pat, start)` (and of `strstr`/`strchr` applied
to the suffix starting at `start`): index of the first occurrence of `pat` at
or after `start`; `npos` is modelled as `none`.  All uses in the sources have
non-empty `pat`. -/
def strFindFrom (s pat : List Char) (start : Nat) : Option Nat :=
  findSubAux pat (s.drop start) start

/-- The literal substring `"name"` (with its surrounding quotes) searched for
by both cpp-pdk example plugins. -/
def nameKey : List Char := ['"', 'n', 'a', 'm', 'e', '"']

/-- Default name `World` used by the example plugins. -/
def worldStr : List Char := ['W', 'o', 'r', 'l', 'd']

/-- The name-extraction chain shared verbatim by `hello_plugin.cpp`
(lines 34–46: `find("\"name\"")`, then `find(":", pos)`, then
`find("\"", pos)`, then the closing `find("\"", pos + 1)`, then `substr`)
and by `hello_plugin.c` (lines 46–74: `strstr`, `strchr`, `strchr`, `strchr`,
`memcpy`).  Every failed search falls back to `World`, exactly as both
sources do (in the C++ source a failed intermediate `find` yields `npos`,
which makes every later `find` return `npos` as well). -/
def extractName (s : List Char) : List Char :=
  match strFindFrom s nameKey 0 with
  | none => worldStr
  | some p0 =>
    match strFindFrom s [':'] p0 with
    | none => worldStr
    | some p1 =>
      match strFindFrom s ['"'] p1 with
      | none => worldStr
      | some p2 =>
        match strFindFrom s ['"'] (p2 + 1) with
        | none => worldStr
        | some e => (s.drop (p2 + 1)).take (e - (p2 + 1))

/-- Result of one guest entry-point invocation: the bytes passed to
`extism_output_set` and the `int32_t` return status. -/
structure PluginResult where
  output : List Char
  status : Int
deriving DecidableEq

/-- The 20-character output head `\x7b"greeting":"Hello, ` produced by all
three plugins (in the C sources via `snprintf` with format
`\x7b\"greeting\":\"Hello, %s!\"\x7d`, in the C++ source via string
concatenation). -/
def greetPre : List Char :=
  ['\x7b', '"', 'g', 'r', 'e', 'e', 't', 'i', 'n', 'g', '"', ':', '"',
   'H', 'e', 'l', 'l', 'o', ',', ' ']

/-- The 3-character output tail `!"\x7d`. -/
def greetSuf : List Char := ['!', '"', '\x7d']

/-- The full output JSON `\x7b"greeting":"Hello, <name>!"\x7d`. -/
def jsonWrap (name : List Char) : List Char := greetPre ++ name ++ greetSuf

/-- Model of a null-terminated C string view of a buffer: everything up to
(but excluding) the first NUL byte. -/
def truncNul (s : List Char) : List Char := s.takeWhile (fun c => c ≠ '\x00')

/-- Embedding of `hello` from `src/cpp-pdk/hello_plugin.cpp` (lines 17–70):
empty input defaults to `World`; input containing both `\x7b` and `"name"`
goes through the extraction chain; any other input is used verbatim as the
name.  The modelled host calls never throw, so the `catch` branch returning 1
is unreachable and the status is always 0. -/
def cppHello (input : List Char) : PluginResult :=
  let name :=
    if input = [] then worldStr
    else if (strFindFrom input ['\x7b'] 0).isSome ∧ (strFindFrom input nameKey 0).isSome then
      extractName input
    else input
  ⟨jsonWrap name, 0⟩

/-- Embedding of `hello` from `src/cpp-pdk/hello_plugin.c` (lines 15–105):
the input buffer is null-terminated and then handled through C string
functions (`strstr`/`strchr`/`strdup`), so the effective buffer is
`truncNul input`; the JSON branch additionally requires `input_len > 2` and a
leading `\x7b` byte; the result is written with
`snprintf(result, 256, ...)`, so at most 255 bytes of output survive.
`malloc` failure (return 1) is not modelled; the status is always 0. -/
def cHello (input : List Char) : PluginResult :=
  let name :=
    if input.length = 0 then worldStr
    else
      let buf := truncNul input
      if 2 < input.length ∧ input.head? = some '\x7b' ∧
          (strFindFrom buf nameKey 0).isSome then
        extractName buf
      else buf
  ⟨(jsonWrap name).take 255, 0⟩

/-- Embedding of `hello` from `src/c-pdk/hello_plugin.c` (lines 10–34):
no JSON handling at all; at most 255 input bytes are copied into the
zero-initialised `name_buf` and read back as a C string by `snprintf`'s
`%s`, so the name is `truncNul (input.take 255)`; the output buffer is 512
bytes, so at most 511 output bytes survive.  The status is always 0. -/
def cPdkHello (input : List Char) : PluginResult :=
  let name :=
    if input.length = 0 then worldStr
    else truncNul (input.take 255)
  ⟨(jsonWrap name).take 511, 0⟩

/-- The 9-character opening `\x7b"name":"` of the JSON literal
`\x7b"name":"X"\x7d` considered by claim C2. -/
def nameLitPre : List Char := ['\x7b', '"', 'n', 'a', 'm', 'e', '"', ':', '"']

/-! ## Host model

The host runtime is not part of this repository; its behaviour is modelled
from the spec (§3, §6, §7): a name-to-bytes variable store and a config
store ("lifetime controlled entirely by the host; the guest only gets/sets
by name"), handles to host memory blocks where a missing variable/config key
is signalled by a zero handle, and an allocator whose handles are fresh and
non-zero.  `extism_http_request`'s status and response pointer are free
fields of the state, so every host HTTP outcome is covered.  Every host call
made by the wrapper is appended to `calls`. -/

/-- One observable host-import invocation (the calls claim C6 orders). -/
inductive HostCall where
  | varSet (name : List Char) (value : List Nat)
  | httpReq (arg : Nat)
deriving DecidableEq

/-- Modelled from the spec: the host-side state visible to the wrapper layer.
`vars`/`config` are association lists (the most recent binding, consed in
front, is the live one), `blocks` holds host memory blocks by offset,
`nextBlock` drives fresh non-zero handle generation, and `httpStatus` /
`httpPtr` are what `extism_http_request` will report. -/
structure HostState where
  vars : List (List Char × List Nat)
  config : List (List Char × List Nat)
  blocks : List (Nat × List Nat)
  nextBlock : Nat
  httpStatus : Int
  httpPtr : Nat
  calls : List HostCall
deriving DecidableEq

/-- Modelled from the spec: host import `extism_var_set` stores the bytes
under the name and logs the call. -/
def extism_var_set (st : HostState) (name : List Char) (value : List Nat) : HostState :=
  { st with vars := (name, value) :: st.vars, calls := st.calls ++ [.varSet name value] }

/-- Modelled from the spec: host import `extism_var_get` returns the zero
handle when the name is absent, otherwise a fresh non-zero handle to a block
holding the stored bytes. -/
def extism_var_get (st : HostState) (name : List Char) : HostState × Nat :=
  match st.vars.lookup name with
  | none => (st, 0)
  | some v =>
    ({ st with blocks := (st.nextBlock + 1, v) :: st.blocks, nextBlock := st.nextBlock + 1 },
     st.nextBlock + 1)

/-- Modelled from the spec: host import `extism_config_get`, exactly like
`extism_var_get` but over the config store. -/
def extism_config_get (st : HostState) (key : List Char) : HostState × Nat :=
  match st.config.lookup key with
  | none => (st, 0)
  | some v =>
    ({ st with blocks := (st.nextBlock + 1, v) :: st.blocks, nextBlock := st.nextBlock + 1 },
     st.nextBlock + 1)

/-- Modelled from the spec: host import `extism_length` — byte length of the
block at a handle. -/
def extism_length (st : HostState) (ptr : Nat) : Nat :=
  ((st.blocks.lookup ptr).getD []).length

/-- Modelled from the spec: host import `extism_load_u8` — read `len` bytes
at relative `off` from the block at a handle. -/
def extism_load_u8 (st : HostState) (ptr off len : Nat) : List Nat :=
  ((((st.blocks.lookup ptr)).getD []).drop off).take len

/-- Modelled from the spec: host import `extism_free` — release the block at
a handle. -/
def extism_free_host (st : HostState) (ptr : Nat) : HostState :=
  { st with blocks := st.blocks.filter (fun b => b.1 ≠ ptr) }

/-- Modelled from the spec: host import `extism_http_request` — reports the
host-chosen status and writes the host-chosen response pointer through the
out-parameter; the call (with its request argument) is logged. -/
def extism_http_request (st : HostState) (reqArg : Nat) : HostState × Int × Nat :=
  ({ st with calls := st.calls ++ [.httpReq reqArg] }, st.httpStatus, st.httpPtr)

/-! ## The C++ wrapper layer (`extism_pdk.h`, C++ part) -/

/-- Bytes of a C++ string as passed to the byte-oriented host imports. -/
def strBytes (s : List Char) : List Nat := s.map Char.toNat

namespace Host

/-- Embedding of `Host::var_get` (extism_pdk.h lines 449–464): zero handle
maps to `none`; otherwise the block is measured, loaded and freed and its
bytes returned. -/
def var_get (st : HostState) (name : List Char) : HostState × Option (List Nat) :=
  let p := extism_var_get st name
  if p.2 = 0 then (p.1, none)
  else
    let len := extism_length p.1 p.2
    let data := extism_load_u8 p.1 p.2 0 len
    (extism_free_host p.1 p.2, some data)

/-- Embedding of `Host::var_set` (extism_pdk.h lines 482–488). -/
def var_set (st : HostState) (name : List Char) (value : List Nat) : HostState :=
  extism_var_set st name value

/-- Embedding of `Host::var_set_string` (extism_pdk.h lines 493–499). -/
def var_set_string (st : HostState) (name value : List Char) : HostState :=
  extism_var_set st name (strBytes value)

/-- Embedding of `Host::config` (extism_pdk.h lines 429–444); the
`std::string` result carries the loaded bytes verbatim, so it is modelled as
the byte list. -/
def config (st : HostState) (key : List Char) : HostState × Option (List Nat) :=
  let p := extism_config_get st key
  if p.2 = 0 then (p.1, none)
  else
    let len := extism_length p.1 p.2
    let data := extism_load_u8 p.1 p.2 0 len
    (extism_free_host p.1 p.2, some data)

end Host

/-- Embedding of `enum class HttpMethod` (extism_pdk.h lines 253–261). -/
inductive HttpMethod where
  | Get | Post | Put | Delete | Patch | Head | Options
deriving DecidableEq

/-- Embedding of `http_method_to_string` (extism_pdk.h lines 266–277). -/
def http_method_to_string : HttpMethod → List Char
  | .Get => ['G', 'E', 'T']
  | .Post => ['P', 'O', 'S', 'T']
  | .Put => ['P', 'U', 'T']
  | .Delete => ['D', 'E', 'L', 'E', 'T', 'E']
  | .Patch => ['P', 'A', 'T', 'C', 'H']
  | .Head => ['H', 'E', 'A', 'D']
  | .Options => ['O', 'P', 'T', 'I', 'O', 'N', 'S']

/-- Embedding of `struct HttpRequest` (extism_pdk.h lines 282–287); the
`std::map` of headers is modelled as its iteration sequence (an association
list in key order with distinct keys). -/
structure HttpRequest where
  method : HttpMethod
  url : List Char
  headers : List (List Char × List Char)
  body : Option (List Nat)

/-- Embedding of `class HttpResponse` (extism_pdk.h lines 292–376): an
opaque response handle. -/
structure HttpResponse where
  ptr : Nat
deriving DecidableEq

/-- Variable name `request:method`. -/
def methodVar : List Char := "request:method".data
/-- Variable name `request:url`. -/
def urlVar : List Char := "request:url".data
/-- Variable-name head `request:header:`. -/
def headerVarPre : List Char := "request:header:".data
/-- Variable name `request:body`. -/
def bodyVar : List Char := "request:body".data
/-- Variable name `response:body`. -/
def respBodyVar : List Char := "response:body".data
/-- Variable-name head `response:header:`. -/
def respHeaderVarPre : List Char := "response:header:".data

namespace Host

/-- Embedding of `Host::http_request` (extism_pdk.h lines 540–565): set
`request:method`, `request:url`, one `request:header:<name>` per header,
`request:body` iff a body is present, then call `extism_http_request(0, …)`;
throw (`Except.error`) on non-zero status, otherwise wrap the response
pointer. -/
def http_request (st : HostState) (req : HttpRequest) :
    HostState × Except (List Char) HttpResponse :=
  let st1 := var_set_string st methodVar (http_method_to_string req.method)
  let st2 := var_set_string st1 urlVar req.url
  let st3 := req.headers.foldl
    (fun s kv => var_set_string s (headerVarPre ++ kv.1) kv.2) st2
  let st4 :=
    match req.body with
    | some b => var_set st3 bodyVar b
    | none => st3
  let r := extism_http_request st4 0
  (r.1, if r.2.1 ≠ 0 then .error "HTTP request failed".data else .ok ⟨r.2.2⟩)

end Host

namespace HttpResponse

/-- Embedding of `HttpResponse::body` (extism_pdk.h lines 306–319): the body
is fetched through the `response:body` variable; a zero handle yields the
empty byte vector. -/
def body (st : HostState) : HostState × List Nat :=
  let p := extism_var_get st respBodyVar
  if p.2 = 0 then (p.1, [])
  else
    let len := extism_length p.1 p.2
    let data := extism_load_u8 p.1 p.2 0 len
    (extism_free_host p.1 p.2, data)

/-- Embedding of `HttpResponse::header` (extism_pdk.h lines 332–348): a zero
handle for `response:header:<name>` yields `none`; the `std::string` result
carries the loaded bytes verbatim. -/
def header (st : HostState) (name : List Char) : HostState × Option (List Nat) :=
  let p := extism_var_get st (respHeaderVarPre ++ name)
  if p.2 = 0 then (p.1, none)
  else
    let len := extism_length p.1 p.2
    let data := extism_load_u8 p.1 p.2 0 len
    (extism_free_host p.1 p.2, some data)

end HttpResponse

/-! ## Memory ownership (`class Memory`, extism_pdk.h lines 130–248)

`Memory` instances are C++ objects; their lifecycle (construction through
`extism_alloc`, move construction, move assignment, destruction through
`extism_free`) is embedded as a small-step machine over the set of live
objects.  Modelled from the spec: the host allocator hands out fresh
non-zero offsets (spec §3: a handle is "owned exclusively", "released
exactly once"; §9 leaves allocation-failure sentinels open, so failures are
not modelled).  The machine records every `extism_free` invocation in
`freed`, including the frees of cleared (offset 0) handles that the
unconditional destructor performs. -/

/-- Embedding of the data members of `class Memory` (extism_pdk.h lines
217–220). -/
structure Memory where
  offset : Nat
  length : Nat
deriving DecidableEq

/-- State of the memory-ownership machine: the live `Memory` objects
(indexed by object identity), the allocator counter (next fresh offset,
starting at 1), and the multiset of offsets passed to `extism_free`. -/
structure MemState where
  handles : Nat → Option Memory
  nextOff : Nat
  freed : List Nat

/-- Pointwise update of the live-object map. -/
def setH (f : Nat → Option Memory) (k : Nat) (v : Option Memory) : Nat → Option Memory :=
  fun n => if n = k then v else f n

/-- Lifecycle events of `Memory` objects: `construct` is the
`explicit Memory(uint64_t)` constructor, `moveConstruct` the move
constructor (lines 231–234), `moveAssign` the move assignment operator
(lines 236–247), `destruct` the destructor (lines 222–224). -/
inductive MemEvent where
  | construct (h : Nat) (size : Nat)
  | moveConstruct (h src : Nat)
  | moveAssign (dst src : Nat)
  | destruct (h : Nat)

/-- Initial state: no live objects, allocator at offset 1, nothing freed. -/
def memInit : MemState := ⟨fun _ => none, 1, []⟩

/-- One lifecycle step.  `construct` allocates a fresh offset; the move
constructor copies `offset`/`length` and clears the source; move assignment
is a no-op on self-assignment (`if (this != &other)`), otherwise frees the
target's non-zero offset, takes over the source's fields and clears the
source; the destructor unconditionally calls `extism_free(offset)` and ends
the object's lifetime.  `none` marks C++-level UB (constructing an existing
object, using a dead one), which no well-formed program performs. -/
def memStep (s : MemState) : MemEvent → Option MemState
  | .construct h size =>
    match s.handles h with
    | some _ => none
    | none => some ⟨setH s.handles h (some ⟨s.nextOff, size⟩), s.nextOff + 1, s.freed⟩
  | .moveConstruct h src =>
    match s.handles h, s.handles src with
    | none, some m =>
      some ⟨setH (setH s.handles src (some ⟨0, 0⟩)) h (some m), s.nextOff, s.freed⟩
    | _, _ => none
  | .moveAssign dst src =>
    if dst = src then
      match s.handles dst with
      | some _ => some s
      | none => none
    else
      match s.handles dst, s.handles src with
      | some md, some ms =>
        some ⟨setH (setH s.handles src (some ⟨0, 0⟩)) dst (some ms), s.nextOff,
              if md.offset = 0 then s.freed else md.offset :: s.freed⟩
      | _, _ => none
  | .destruct h =>
    match s.handles h with
    | some m => some ⟨setH s.handles h none, s.nextOff, m.offset :: s.freed⟩
    | none => none

/-- Run a sequence of lifecycle events. -/
def memRun (s : MemState) : List MemEvent → Option MemState
  | [] => some s
  | e :: es =>
    match memStep s e with
    | some s1 => memRun s1 es
    | none => none

/-- Invariant tying ownership to frees: the allocator is past 0; every live
offset is below the allocator; a live non-zero offset is unfreed and has a
unique owner; every allocated offset is freed at most once; offsets not yet
allocated are unfreed. -/
def MemInv (s : MemState) : Prop :=
  1 ≤ s.nextOff ∧
  (∀ h m, s.handles h = some m → m.offset < s.nextOff) ∧
  (∀ h m, s.handles h = some m → m.offset ≠ 0 → s.freed.count m.offset = 0) ∧
  (∀ h1 h2 m1 m2, s.handles h1 = some m1 → s.handles h2 = some m2 →
    m1.offset ≠ 0 → m1.offset = m2.offset → h1 = h2) ∧
  (∀ o, o ≠ 0 → o < s.nextOff → s.freed.count o ≤ 1) ∧
  (∀ o, s.nextOff ≤ o → s.freed.count o = 0)

end Extism

namespace Extism

/-! ### Sanity checks on concrete inputs (kept as anonymous examples) -/

example : cppHello [] = ⟨jsonWrap worldStr, 0⟩ := by decide

example : cppHello (nameLitPre ++ ['X'] ++ ['"', '\x7d']) = ⟨jsonWrap ['X'], 0⟩ := by decide

example : cHello (nameLitPre ++ ['B', 'o', 'b'] ++ ['"', '\x7d']) = ⟨jsonWrap ['B', 'o', 'b'], 0⟩ := by
  decide

example : cppHello ['H', 'i'] = ⟨jsonWrap ['H', 'i'], 0⟩ := by decide

/-! ## Lemmas about the search primitive -/

/-- Searching for a single character walks past any block not containing it
and stops on its first occurrence. -/
theorem findSubAux_char_append (c : Char) (X r : List Char) (i : Nat) (h : c ∉ X) :
    findSubAux [c] (X ++ c :: r) i = some (i + X.length) := by
  induction X generalizing i with
  | nil => simp [findSubAux, List.isPrefixOf]
  | cons a t ih =>
    have hc : c ≠ a := fun hh => h (hh ▸ List.mem_cons_self a t)
    have hm : c ∉ t := fun hh => h (List.mem_cons_of_mem a hh)
    simp [findSubAux, List.isPrefixOf, hc, ih (i + 1) hm]
    omega

/-- Searching for a single character absent from the list fails. -/
theorem findSubAux_char_none (c : Char) (s : List Char) (i : Nat) (h : c ∉ s) :
    findSubAux [c] s i = none := by
  induction s generalizing i with
  | nil => simp [findSubAux, List.isPrefixOf]
  | cons a t ih =>
    have hc : c ≠ a := fun hh => h (hh ▸ List.mem_cons_self a t)
    have hm : c ∉ t := fun hh => h (List.mem_cons_of_mem a hh)
    simp [findSubAux, List.isPrefixOf, hc, ih (i + 1) hm]

/-- A pattern longer than the list cannot occur in it. -/
theorem findSubAux_none_of_short (pat s : List Char) (i : Nat) (h : s.length < pat.length) :
    findSubAux pat s i = none := by
  induction s generalizing i with
  | nil =>
    have hp : ¬ pat.isPrefixOf [] = true := by
      intro hp
      have hle := (List.isPrefixOf_iff_prefix.mp hp).length_le
      simp only [List.length_nil] at h hle
      omega
    simp [findSubAux, hp]
  | cons a t ih =>
    simp only [List.length_cons] at h
    have hl : t.length < pat.length := by omega
    have hp : ¬ pat.isPrefixOf (a :: t) = true := by
      intro hp
      have hle := (List.isPrefixOf_iff_prefix.mp hp).length_le
      simp only [List.length_cons] at hle
      omega
    simp [findSubAux, hp, ih (i + 1) hl]

/-- If the pattern occurs at no position of the list, the search fails. -/
theorem findSubAux_none_of_no_match (pat s : List Char) (i : Nat)
    (h : ∀ j, ¬ pat.isPrefixOf (s.drop j) = true) : findSubAux pat s i = none := by
  induction s generalizing i with
  | nil =>
    have h0 := h 0
    simp only [List.drop_zero] at h0
    simp [findSubAux, h0]
  | cons a t ih =>
    have h0 := h 0
    simp only [List.drop_zero] at h0
    have ht : ∀ j, ¬ pat.isPrefixOf (t.drop j) = true := by
      intro j
      have hj := h (j + 1)
      simpa using hj
    simp [findSubAux, h0, ih (i + 1) ht]

/-- A null-free block passes through `truncNul` unscathed. -/
theorem truncNul_append (a b : List Char) (h : ∀ c ∈ a, c ≠ '\x00') :
    truncNul (a ++ b) = a ++ truncNul b := by
  induction a with
  | nil => simp
  | cons c t ih =>
    have hc : c ≠ '\x00' := h c (List.mem_cons_self c t)
    have ht : ∀ x ∈ t, x ≠ '\x00' := fun x hx => h x (List.mem_cons_of_mem c hx)
    have ih2 := ih ht
    simp only [truncNul] at ih2 ⊢
    simp [List.takeWhile_cons, hc] at ih2 ⊢
    exact ih2

/-- A null-free list passes through `truncNul` unchanged. -/
theorem truncNul_eq_self (a : List Char) (h : '\x00' ∉ a) : truncNul a = a := by
  have := truncNul_append a [] (fun c hc => fun hh => h (hh ▸ hc))
  simpa [truncNul] using this

/-- The extracted name is never longer than the scanned string (or the
5-character default). -/
theorem extractName_length_le (s : List Char) : (extractName s).length ≤ max 5 s.length := by
  unfold extractName
  repeat' split
  all_goals simp [worldStr, List.length_take, List.length_drop]

/-- The full extraction chain on a string of the shape
`\x7b"name":"X"\x7dr` (a quote-free `X`) yields exactly `X`. -/
theorem extractName_json (X r : List Char) (hq : '"' ∉ X) :
    extractName ('\x7b' :: '"' :: 'n' :: 'a' :: 'm' :: 'e' :: '"' :: ':' :: '"' ::
      (X ++ '"' :: '\x7d' :: r)) = X := by
  set s := '\x7b' :: '"' :: 'n' :: 'a' :: 'm' :: 'e' :: '"' :: ':' :: '"' ::
      (X ++ '"' :: '\x7d' :: r) with hs
  have h0 : strFindFrom s nameKey 0 = some 1 := by
    simp [hs, strFindFrom, findSubAux, nameKey, List.isPrefixOf]
  have hd1 : s.drop 1 = '"' :: 'n' :: 'a' :: 'm' :: 'e' :: '"' :: ':' :: '"' ::
      (X ++ '"' :: '\x7d' :: r) := rfl
  have h1 : strFindFrom s [':'] 1 = some 7 := by
    show findSubAux [':'] (s.drop 1) 1 = some 7
    rw [hd1]
    simp [findSubAux, List.isPrefixOf]
  have hd7 : s.drop 7 = ':' :: '"' :: (X ++ '"' :: '\x7d' :: r) := rfl
  have h2 : strFindFrom s ['"'] 7 = some 8 := by
    show findSubAux ['"'] (s.drop 7) 7 = some 8
    rw [hd7]
    simp [findSubAux, List.isPrefixOf]
  have hd9 : s.drop 9 = X ++ '"' :: '\x7d' :: r := rfl
  have h3 : strFindFrom s ['"'] 9 = some (9 + X.length) := by
    show findSubAux ['"'] (s.drop 9) 9 = some (9 + X.length)
    rw [hd9]
    exact findSubAux_char_append '"' X _ 9 hq
  have h9 : (8 : Nat) + 1 = 9 := rfl
  simp only [extractName, h0, h1, h2, h9, h3, hd9]
  have hlen : 9 + X.length - 9 = X.length := by omega
  rw [hlen]
  exact List.take_left X _

/-- The brace is found immediately at the head of the JSON literal. -/
theorem strFind_lit_brace (X r : List Char) :
    strFindFrom ('\x7b' :: '"' :: 'n' :: 'a' :: 'm' :: 'e' :: '"' :: ':' :: '"' ::
      (X ++ '"' :: '\x7d' :: r)) ['\x7b'] 0 = some 0 := by
  simp [strFindFrom, findSubAux, List.isPrefixOf]

/-- The key `"name"` is found at index 1 of the JSON literal. -/
theorem strFind_lit_name (X r : List Char) :
    strFindFrom ('\x7b' :: '"' :: 'n' :: 'a' :: 'm' :: 'e' :: '"' :: ':' :: '"' ::
      (X ++ '"' :: '\x7d' :: r)) nameKey 0 = some 1 := by
  simp [strFindFrom, findSubAux, nameKey, List.isPrefixOf]

/-! ## Theorems about the example plugins -/

/-- C2 counterexample: the input `"name":"Y" \x7b"name":"X"\x7d` contains
`\x7b`, contains `"name"`, and contains the literal `\x7b"name":"X"\x7d`
with quote-free `X`, yet neither cpp-pdk hello entry point outputs the
greeting for `X`: the C++ one extracts `Y` (the first `"name"` occurrence
wins), the C one treats the whole input as the name (it does not start with
`\x7b`). -/
theorem hello_extracts_name_cex :
    (['"', 'n', 'a', 'm', 'e', '"', ':', '"', 'Y', '"', ' '] ++
        (nameLitPre ++ ['X'] ++ '"' :: '\x7d' :: []) =
      ['"', 'n', 'a', 'm', 'e', '"', ':', '"', 'Y', '"', ' ',
       '\x7b', '"', 'n', 'a', 'm', 'e', '"', ':', '"', 'X', '"', '\x7d']) ∧
    cppHello ['"', 'n', 'a', 'm', 'e', '"', ':', '"', 'Y', '"', ' ',
       '\x7b', '"', 'n', 'a', 'm', 'e', '"', ':', '"', 'X', '"', '\x7d'] ≠
      ⟨jsonWrap ['X'], 0⟩ ∧
    cHello ['"', 'n', 'a', 'm', 'e', '"', ':', '"', 'Y', '"', ' ',
       '\x7b', '"', 'n', 'a', 'm', 'e', '"', ':', '"', 'X', '"', '\x7d'] ≠
      ⟨jsonWrap ['X'], 0⟩ := by
  decide

/-- C2 (amended): for every input that starts with the literal
`\x7b"name":"X"\x7d` (arbitrary suffix; `X` quote-free, NUL-free, at most
200 bytes), both cpp-pdk hello entry points extract exactly `X` and output
`\x7b"greeting":"Hello, X!"\x7d` with status 0. -/
theorem hello_extracts_name (X post : List Char)
    (hq : '"' ∉ X) (hnul : '\x00' ∉ X) (hlen : X.length ≤ 200) :
    cppHello (nameLitPre ++ X ++ '"' :: '\x7d' :: post) = ⟨jsonWrap X, 0⟩ ∧
    cHello (nameLitPre ++ X ++ '"' :: '\x7d' :: post) = ⟨jsonWrap X, 0⟩ := by
  have hin : nameLitPre ++ X ++ '"' :: '\x7d' :: post
      = '\x7b' :: '"' :: 'n' :: 'a' :: 'm' :: 'e' :: '"' :: ':' :: '"' ::
        (X ++ '"' :: '\x7d' :: post) := by
    simp [nameLitPre]
  constructor
  · rw [hin]
    have h1 := strFind_lit_brace X post
    have h2 := strFind_lit_name X post
    have hex := extractName_json X post hq
    simp [cppHello, h1, h2, hex]
  · rw [hin]
    have hns : ∀ c ∈ ('\x7b' :: '"' :: 'n' :: 'a' :: 'm' :: 'e' :: '"' :: ':' :: '"' ::
        (X ++ ['"', '\x7d'])), c ≠ '\x00' := by
      intro c hc hz
      subst hz
      simp [List.mem_cons, List.mem_append] at hc
      exact hnul hc
    have hassoc : '\x7b' :: '"' :: 'n' :: 'a' :: 'm' :: 'e' :: '"' :: ':' :: '"' ::
          (X ++ '"' :: '\x7d' :: post)
        = ('\x7b' :: '"' :: 'n' :: 'a' :: 'm' :: 'e' :: '"' :: ':' :: '"' ::
          (X ++ ['"', '\x7d'])) ++ post := by
      simp
    have hbuf : truncNul ('\x7b' :: '"' :: 'n' :: 'a' :: 'm' :: 'e' :: '"' :: ':' :: '"' ::
          (X ++ '"' :: '\x7d' :: post))
        = '\x7b' :: '"' :: 'n' :: 'a' :: 'm' :: 'e' :: '"' :: ':' :: '"' ::
          (X ++ '"' :: '\x7d' :: truncNul post) := by
      rw [hassoc, truncNul_append _ _ hns]
      simp
    have hname2 := strFind_lit_name X (truncNul post)
    have hex2 := extractName_json X (truncNul post) hq
    have hlen2 : 2 < ('\x7b' :: '"' :: 'n' :: 'a' :: 'm' :: 'e' :: '"' :: ':' :: '"' ::
        (X ++ '"' :: '\x7d' :: post)).length := by
      simp [List.length_append]
    have htk : (jsonWrap X).take 255 = jsonWrap X := by
      apply List.take_of_length_le
      simp [jsonWrap, greetPre, greetSuf]
      omega
    simp [cHello, hbuf, hname2, hex2, hlen2, htk]

/-- Witness for C2 (amended): computed at `X = "X"`, empty suffix. -/
theorem hello_extracts_name_witness :
    cppHello (nameLitPre ++ ['X'] ++ '"' :: '\x7d' :: []) = ⟨jsonWrap ['X'], 0⟩ ∧
    cHello (nameLitPre ++ ['X'] ++ '"' :: '\x7d' :: []) = ⟨jsonWrap ['X'], 0⟩ :=
  hello_extracts_name ['X'] [] (by decide) (by decide) (by decide)

/-- C4 counterexample: 300 letters `a` form a non-empty input containing
neither `\x7b` nor `"name"`, yet both C implementations truncate — the
cpp-pdk C plugin truncates the output to 255 bytes, the c-pdk plugin
truncates the name to 255 bytes — so the input is not reproduced in full. -/
theorem plain_input_used_verbatim_cex :
    ('\x7b' ∉ List.replicate 300 'a') ∧
    cHello (List.replicate 300 'a') ≠ ⟨jsonWrap (List.replicate 300 'a'), 0⟩ ∧
    cPdkHello (List.replicate 300 'a') ≠ ⟨jsonWrap (List.replicate 300 'a'), 0⟩ := by
  decide

/-- C4 (amended): for every non-empty input of at most 230 bytes, free of
NUL bytes, containing neither `\x7b` nor the substring `"name"`, all three
hello entry points use the entire input verbatim as the name and output
`\x7b"greeting":"Hello, <input>!"\x7d` with status 0.  (The C++
implementation needs none of the two byte-level restrictions; they are
forced by the fixed buffers and C strings of the two C implementations.) -/
theorem plain_input_used_verbatim (input : List Char)
    (hne : input ≠ [])
    (hlen : input.length ≤ 230)
    (hnul : '\x00' ∉ input)
    (hbr : '\x7b' ∉ input)
    (hnm : ∀ j, ¬ nameKey.isPrefixOf (input.drop j) = true) :
    cppHello input = ⟨jsonWrap input, 0⟩ ∧
    cHello input = ⟨jsonWrap input, 0⟩ ∧
    cPdkHello input = ⟨jsonWrap input, 0⟩ := by
  have hfindb : strFindFrom input ['\x7b'] 0 = none := by
    show findSubAux ['\x7b'] (input.drop 0) 0 = none
    rw [List.drop_zero]
    exact findSubAux_char_none _ _ _ hbr
  have htr : truncNul input = input := truncNul_eq_self input hnul
  have hl0 : ¬ input.length = 0 := by
    simpa [List.length_eq_zero] using hne
  have hjl : (jsonWrap input).length ≤ 253 := by
    simp [jsonWrap, greetPre, greetSuf]
    omega
  have hhead : ¬ input.head? = some '\x7b' := by
    intro hh
    exact hbr (List.mem_of_mem_head? (Option.mem_def.mpr hh))
  have ht255 : (jsonWrap input).take 255 = jsonWrap input :=
    List.take_of_length_le (by omega)
  have ht511 : (jsonWrap input).take 511 = jsonWrap input :=
    List.take_of_length_le (by omega)
  have h255 : input.take 255 = input := List.take_of_length_le (by omega)
  refine ⟨?_, ?_, ?_⟩
  · simp [cppHello, hne, hfindb]
  · simp [cHello, hl0, hhead, htr, ht255]
  · simp [cPdkHello, hl0, h255, htr, ht511]

/-- Witness for C4 (amended): computed at input `Bob`. -/
theorem plain_input_used_verbatim_witness :
    cppHello ['B', 'o', 'b'] = ⟨jsonWrap ['B', 'o', 'b'], 0⟩ ∧
    cHello ['B', 'o', 'b'] = ⟨jsonWrap ['B', 'o', 'b'], 0⟩ ∧
    cPdkHello ['B', 'o', 'b'] = ⟨jsonWrap ['B', 'o', 'b'], 0⟩ :=
  plain_input_used_verbatim ['B', 'o', 'b'] (by decide) (by decide) (by decide) (by decide)
    (by
      intro j
      match j with
      | 0 => decide
      | 1 => decide
      | 2 => decide
      | n + 3 =>
        rw [List.drop_eq_nil_of_le (by simp)]
        decide)

/-- C9 counterexample: on `a\x7b"name":"X"\x7d` the C++ plugin extracts `X`
(it only requires `\x7b` to occur somewhere) while the C plugin, whose JSON
test requires the first byte to be `\x7b`, uses the whole input as the
name. -/
theorem c_cpp_hello_agree_cex :
    cHello ['a', '\x7b', '"', 'n', 'a', 'm', 'e', '"', ':', '"', 'X', '"', '\x7d'] ≠
      cppHello ['a', '\x7b', '"', 'n', 'a', 'm', 'e', '"', ':', '"', 'X', '"', '\x7d'] := by
  decide

/-- C9 (amended): the cpp-pdk C and C++ hello plugins produce the same
output bytes and the same status for every input of at most 230 NUL-free
bytes that is empty, or starts with `\x7b`, or does not contain `\x7b`, or
does not contain the substring `"name"`. -/
theorem c_cpp_hello_agree (input : List Char)
    (hlen : input.length ≤ 230)
    (hnul : '\x00' ∉ input)
    (hd : input = [] ∨ input.head? = some '\x7b' ∨ '\x7b' ∉ input ∨
      (∀ j, ¬ nameKey.isPrefixOf (input.drop j) = true)) :
    cHello input = cppHello input := by
  have hwrap : ∀ nm : List Char, nm.length ≤ 230 → (jsonWrap nm).take 255 = jsonWrap nm := by
    intro nm hnm
    apply List.take_of_length_le
    simp [jsonWrap, greetPre, greetSuf]
    omega
  cases input with
  | nil => decide
  | cons a t =>
    have htr : truncNul (a :: t) = a :: t := truncNul_eq_self _ hnul
    by_cases hc : (strFindFrom (a :: t) nameKey 0).isSome = true
    · have h6 : 6 ≤ (a :: t).length := by
        by_contra h6
        have hnone : strFindFrom (a :: t) nameKey 0 = none := by
          show findSubAux nameKey ((a :: t).drop 0) 0 = none
          rw [List.drop_zero]
          apply findSubAux_none_of_short
          simp [nameKey] at h6 ⊢
          omega
        rw [hnone] at hc
        simp at hc
      rcases hd with hd | hd | hd | hd
      · exact absurd hd (by simp)
      · have ha : a = '\x7b' := by simpa using hd
        subst ha
        have hbr : strFindFrom ('\x7b' :: t) ['\x7b'] 0 = some 0 := by
          simp [strFindFrom, findSubAux, List.isPrefixOf]
        have hnmlen : (extractName ('\x7b' :: t)).length ≤ 230 :=
          le_trans (extractName_length_le _) (max_le (by norm_num) hlen)
        have h2 : 2 < t.length + 1 := by
          simp only [List.length_cons] at h6
          omega
        simp [cHello, cppHello, htr, hbr, hc, h2, hwrap _ hnmlen]
      · have hfindb : strFindFrom (a :: t) ['\x7b'] 0 = none := by
          show findSubAux ['\x7b'] ((a :: t).drop 0) 0 = none
          rw [List.drop_zero]
          exact findSubAux_char_none _ _ _ hd
        have ha : ¬ a = '\x7b' := fun h => hd (h ▸ List.mem_cons_self a t)
        simp [cHello, cppHello, htr, hfindb, ha, hwrap _ hlen]
      · have hnone : strFindFrom (a :: t) nameKey 0 = none := by
          show findSubAux nameKey ((a :: t).drop 0) 0 = none
          rw [List.drop_zero]
          exact findSubAux_none_of_no_match _ _ _ hd
        rw [hnone] at hc
        simp at hc
    · have hnone : strFindFrom (a :: t) nameKey 0 = none := by
        cases hx : strFindFrom (a :: t) nameKey 0 with
        | none => rfl
        | some v =>
          rw [hx] at hc
          simp at hc
      simp [cHello, cppHello, hnone, htr, hwrap _ hlen]

/-- Witness for C9 (amended): computed at input `Bob` (no `\x7b`). -/
theorem c_cpp_hello_agree_witness :
    cHello ['B', 'o', 'b'] = cppHello ['B', 'o', 'b'] :=
  c_cpp_hello_agree ['B', 'o', 'b'] (by decide) (by decide)
    (Or.inr (Or.inr (Or.inl (by decide))))

/-! ## Theorems about the host facade -/

/-- Projections of `Host::var_set_string`: only `vars` and the call log
change. -/
theorem var_set_string_httpStatus (s : HostState) (n v : List Char) :
    (Host.var_set_string s n v).httpStatus = s.httpStatus := rfl

theorem var_set_string_httpPtr (s : HostState) (n v : List Char) :
    (Host.var_set_string s n v).httpPtr = s.httpPtr := rfl

theorem var_set_string_calls (s : HostState) (n v : List Char) :
    (Host.var_set_string s n v).calls = s.calls ++ [HostCall.varSet n (strBytes v)] := rfl

/-- Projections of `Host::var_set`. -/
theorem var_set_httpStatus (s : HostState) (n : List Char) (v : List Nat) :
    (Host.var_set s n v).httpStatus = s.httpStatus := rfl

theorem var_set_httpPtr (s : HostState) (n : List Char) (v : List Nat) :
    (Host.var_set s n v).httpPtr = s.httpPtr := rfl

theorem var_set_calls (s : HostState) (n : List Char) (v : List Nat) :
    (Host.var_set s n v).calls = s.calls ++ [HostCall.varSet n v] := rfl

/-- Projections of `extism_http_request`. -/
theorem extism_http_request_status (s : HostState) (a : Nat) :
    (extism_http_request s a).2.1 = s.httpStatus := rfl

theorem extism_http_request_ptr (s : HostState) (a : Nat) :
    (extism_http_request s a).2.2 = s.httpPtr := rfl

theorem extism_http_request_calls (s : HostState) (a : Nat) :
    (extism_http_request s a).1.calls = s.calls ++ [HostCall.httpReq a] := rfl

/-- Folding `var_set_string` over the headers only appends to the call log. -/
theorem foldl_var_set_calls (headers : List (List Char × List Char)) (s : HostState) :
    (headers.foldl (fun s kv => Host.var_set_string s (headerVarPre ++ kv.1) kv.2) s).calls
      = s.calls ++ headers.map (fun kv => HostCall.varSet (headerVarPre ++ kv.1) (strBytes kv.2)) := by
  induction headers generalizing s with
  | nil => simp
  | cons kv t ih =>
    rw [List.foldl_cons, ih, var_set_string_calls]
    simp

/-- Folding `var_set_string` over the headers leaves `httpStatus` unchanged. -/
theorem foldl_var_set_httpStatus (headers : List (List Char × List Char)) (s : HostState) :
    (headers.foldl (fun s kv => Host.var_set_string s (headerVarPre ++ kv.1) kv.2) s).httpStatus
      = s.httpStatus := by
  induction headers generalizing s with
  | nil => simp
  | cons kv t ih => rw [List.foldl_cons, ih, var_set_string_httpStatus]

/-- Folding `var_set_string` over the headers leaves `httpPtr` unchanged. -/
theorem foldl_var_set_httpPtr (headers : List (List Char × List Char)) (s : HostState) :
    (headers.foldl (fun s kv => Host.var_set_string s (headerVarPre ++ kv.1) kv.2) s).httpPtr
      = s.httpPtr := by
  induction headers generalizing s with
  | nil => simp
  | cons kv t ih => rw [List.foldl_cons, ih, var_set_string_httpPtr]

/-- The result component of `Host::http_request` depends only on the host's
HTTP status and pointer. -/
theorem http_request_snd (st : HostState) (req : HttpRequest) :
    (Host.http_request st req).2
      = if st.httpStatus ≠ 0 then Except.error "HTTP request failed".data
        else Except.ok ⟨st.httpPtr⟩ := by
  simp only [Host.http_request]
  cases req.body <;>
    simp only [extism_http_request_status, extism_http_request_ptr,
      var_set_httpStatus, var_set_httpPtr, foldl_var_set_httpStatus, foldl_var_set_httpPtr,
      var_set_string_httpStatus, var_set_string_httpPtr]

/-- C3: on empty input all three hello entry points output exactly
`\x7b"greeting":"Hello, World!"\x7d` and return status 0. -/
theorem hello_empty_input_default_world :
    cppHello [] = ⟨jsonWrap worldStr, 0⟩ ∧
    cHello [] = ⟨jsonWrap worldStr, 0⟩ ∧
    cPdkHello [] = ⟨jsonWrap worldStr, 0⟩ := by
  decide

/-- C5: `Host::http_request` throws (returns `Except.error`, producing no
`HttpResponse`) exactly when the host primitive reports a non-zero status; a
response object is produced only on status zero. -/
theorem http_request_error_on_nonzero_status (st : HostState) (req : HttpRequest) :
    (st.httpStatus ≠ 0 → ∃ e, (Host.http_request st req).2 = .error e) ∧
    (st.httpStatus = 0 → ∃ r, (Host.http_request st req).2 = .ok r) := by
  refine ⟨fun h => ⟨"HTTP request failed".data, ?_⟩, fun h => ⟨⟨st.httpPtr⟩, ?_⟩⟩ <;>
    simp [http_request_snd, h]

/-- Witness for C5 at a concrete state and request: status 1 yields an
error, status 0 yields a response. -/
theorem http_request_error_on_nonzero_status_witness :
    (∃ e, (Host.http_request ⟨[], [], [], 0, 1, 7, []⟩ ⟨.Get, [], [], none⟩).2 = .error e) ∧
    (∃ r, (Host.http_request ⟨[], [], [], 0, 0, 7, []⟩ ⟨.Get, [], [], none⟩).2 = .ok r) :=
  ⟨(http_request_error_on_nonzero_status ⟨[], [], [], 0, 1, 7, []⟩ ⟨.Get, [], [], none⟩).1
      (by decide),
   (http_request_error_on_nonzero_status ⟨[], [], [], 0, 0, 7, []⟩ ⟨.Get, [], [], none⟩).2 rfl⟩

/-- C6: `Host::http_request` performs exactly, and in this order, the host
calls: set `request:method`, set `request:url`, set one
`request:header:<name>` per header, set `request:body` iff a body is
present, and finally `extism_http_request` with first argument 0. -/
theorem http_request_call_sequence (st : HostState) (req : HttpRequest) :
    (Host.http_request st req).1.calls
      = st.calls ++
        HostCall.varSet methodVar (strBytes (http_method_to_string req.method)) ::
        HostCall.varSet urlVar (strBytes req.url) ::
        (req.headers.map (fun kv => HostCall.varSet (headerVarPre ++ kv.1) (strBytes kv.2)) ++
          (match req.body with
           | some b => [HostCall.varSet bodyVar b]
           | none => []) ++
          [HostCall.httpReq 0]) := by
  simp only [Host.http_request]
  cases req.body <;>
    simp only [extism_http_request_calls, var_set_calls, var_set_string_calls,
      foldl_var_set_calls] <;>
    simp

/-- C7: setting a variable and then getting it back through the wrapper
returns exactly the bytes that were set, for any byte sequence including the
empty one.  (Host variable store modelled from the spec.) -/
theorem var_set_get_roundtrip (st : HostState) (name : List Char) (v : List Nat) :
    (Host.var_get (Host.var_set st name v) name).2 = some v := by
  simp [Host.var_get, Host.var_set, extism_var_set, extism_var_get, List.lookup,
    extism_length, extism_load_u8]

/-- C8: the wrapper translates a zero handle from `extism_var_get` /
`extism_config_get` into an absent value (`none`), and a non-zero handle
into a present value. -/
theorem absent_value_iff_zero_handle (st : HostState) (name key : List Char) :
    ((extism_var_get st name).2 = 0 → (Host.var_get st name).2 = none) ∧
    ((extism_var_get st name).2 ≠ 0 → ((Host.var_get st name).2).isSome) ∧
    ((extism_config_get st key).2 = 0 → (Host.config st key).2 = none) ∧
    ((extism_config_get st key).2 ≠ 0 → ((Host.config st key).2).isSome) := by
  refine ⟨fun h => ?_, fun h => ?_, fun h => ?_, fun h => ?_⟩
  · simp [Host.var_get, h]
  · simp [Host.var_get, h]
  · simp [Host.config, h]
  · simp [Host.config, h]

/-- Witness for C8: with an empty store the handle is zero and the results
are absent; with one binding the handle is non-zero and the results are
present. -/
theorem absent_value_iff_zero_handle_witness :
    (Host.var_get ⟨[], [], [], 0, 0, 0, []⟩ ['a']).2 = none ∧
    ((Host.var_get ⟨[(['a'], [7]), ([], [])], [], [], 0, 0, 0, []⟩ ['a']).2).isSome ∧
    (Host.config ⟨[], [], [], 0, 0, 0, []⟩ ['k']).2 = none ∧
    ((Host.config ⟨[], [(['k'], [9])], [], 0, 0, 0, []⟩ ['k']).2).isSome :=
  ⟨(absent_value_iff_zero_handle ⟨[], [], [], 0, 0, 0, []⟩ ['a'] ['k']).1 (by decide),
   (absent_value_iff_zero_handle ⟨[(['a'], [7]), ([], [])], [], [], 0, 0, 0, []⟩ ['a'] ['k']).2.1
      (by decide),
   (absent_value_iff_zero_handle ⟨[], [], [], 0, 0, 0, []⟩ ['a'] ['k']).2.2.1 (by decide),
   (absent_value_iff_zero_handle ⟨[], [(['k'], [9])], [], 0, 0, 0, []⟩ ['a'] ['k']).2.2.2
      (by decide)⟩

/-- C10: a missing `response:body` variable makes `HttpResponse::body`
return the empty byte vector — the same result as a present-but-empty body —
whereas a missing `response:header:<name>` variable makes
`HttpResponse::header` return `none`. -/
theorem response_body_empty_header_none (st : HostState) (name : List Char) :
    (st.vars.lookup respBodyVar = none → (HttpResponse.body st).2 = []) ∧
    (st.vars.lookup respBodyVar = some [] → (HttpResponse.body st).2 = []) ∧
    (st.vars.lookup (respHeaderVarPre ++ name) = none →
      (HttpResponse.header st name).2 = none) := by
  refine ⟨fun h => ?_, fun h => ?_, fun h => ?_⟩
  · simp [HttpResponse.body, extism_var_get, h]
  · simp [HttpResponse.body, extism_var_get, h, extism_length, extism_load_u8, List.lookup]
  · simp [HttpResponse.header, extism_var_get, h]

/-- Witness for C10: computed on an empty store and on a store with an
empty `response:body`. -/
theorem response_body_empty_header_none_witness :
    (HttpResponse.body ⟨[], [], [], 0, 0, 0, []⟩).2 = [] ∧
    (HttpResponse.body ⟨[(respBodyVar, [])], [], [], 0, 0, 0, []⟩).2 = [] ∧
    (HttpResponse.header ⟨[], [], [], 0, 0, 0, []⟩ ['x']).2 = none :=
  ⟨(response_body_empty_header_none ⟨[], [], [], 0, 0, 0, []⟩ ['x']).1 (by decide),
   (response_body_empty_header_none ⟨[(respBodyVar, [])], [], [], 0, 0, 0, []⟩ ['x']).2.1
      (by decide),
   (response_body_empty_header_none ⟨[], [], [], 0, 0, 0, []⟩ ['x']).2.2 (by decide)⟩

/-! ## Theorems about memory ownership -/

theorem setH_same (f : Nat → Option Memory) (k : Nat) (v : Option Memory) :
    setH f k v k = v := by
  simp [setH]

theorem setH_ne (f : Nat → Option Memory) (k : Nat) (v : Option Memory) (n : Nat)
    (h : n ≠ k) : setH f k v n = f n := by
  simp [setH, h]

theorem memory_offset_mk (a b : Nat) : (Memory.mk a b).offset = a := rfl

theorem count_cons_nat (a b : Nat) (l : List Nat) :
    (b :: l).count a = l.count a + if a = b then 1 else 0 := by
  by_cases h : a = b
  · subst h
    simp [List.count_cons_self]
  · simp [List.count_cons_of_ne h, h]

/-- The initial state satisfies the ownership invariant. -/
theorem memInv_init : MemInv memInit := by
  refine ⟨le_refl 1, ?_, ?_, ?_, ?_, ?_⟩
  · intro h m hm
    exact Option.noConfusion hm
  · intro h m hm
    exact Option.noConfusion hm
  · intro h1 h2 m1 m2 hm1 hm2 hnz heq
    exact Option.noConfusion hm1
  · intro o ho hlt
    exact Nat.zero_le 1
  · intro o ho
    rfl

/-- Constructing a `Memory` object preserves the invariant. -/
theorem memInv_construct {s : MemState} (h size : Nat) (hi : MemInv s) :
    MemInv ⟨setH s.handles h (some ⟨s.nextOff, size⟩), s.nextOff + 1, s.freed⟩ := by
  obtain ⟨i1, i2, i3, i4, i5, i6⟩ := hi
  unfold MemInv
  dsimp only
  refine ⟨by omega, ?_, ?_, ?_, ?_, ?_⟩
  · intro h2 m hm
    by_cases he : h2 = h
    · subst he
      rw [setH_same] at hm
      injection hm with hm
      subst hm
      simp only [memory_offset_mk]
      omega
    · rw [setH_ne _ _ _ _ he] at hm
      exact lt_trans (i2 h2 m hm) (Nat.lt_succ_self _)
  · intro h2 m hm hnz
    by_cases he : h2 = h
    · subst he
      rw [setH_same] at hm
      injection hm with hm
      subst hm
      simp only [memory_offset_mk]
      exact i6 s.nextOff (le_refl _)
    · rw [setH_ne _ _ _ _ he] at hm
      exact i3 h2 m hm hnz
  · intro h1 h2 m1 m2 hm1 hm2 hnz heq
    by_cases he1 : h1 = h <;> by_cases he2 : h2 = h
    · rw [he1, he2]
    · subst he1
      rw [setH_same] at hm1
      rw [setH_ne _ _ _ _ he2] at hm2
      injection hm1 with hm1
      subst hm1
      have hlt := i2 h2 m2 hm2
      simp only [memory_offset_mk] at heq
      omega
    · subst he2
      rw [setH_same] at hm2
      rw [setH_ne _ _ _ _ he1] at hm1
      injection hm2 with hm2
      subst hm2
      have hlt := i2 h1 m1 hm1
      simp only [memory_offset_mk] at heq
      omega
    · rw [setH_ne _ _ _ _ he1] at hm1
      rw [setH_ne _ _ _ _ he2] at hm2
      exact i4 h1 h2 m1 m2 hm1 hm2 hnz heq
  · intro o ho hlt
    by_cases hl : o < s.nextOff
    · exact i5 o ho hl
    · have hz := i6 o (by omega)
      omega
  · intro o ho
    exact i6 o (by omega)

/-- Move-constructing from a live `Memory` object preserves the invariant. -/
theorem memInv_moveConstruct {s : MemState} (h src : Nat) (m : Memory) (hi : MemInv s)
    (hh : s.handles h = none) (hsrc : s.handles src = some m) :
    MemInv ⟨setH (setH s.handles src (some ⟨0, 0⟩)) h (some m), s.nextOff, s.freed⟩ := by
  obtain ⟨i1, i2, i3, i4, i5, i6⟩ := hi
  unfold MemInv
  dsimp only
  have hne : h ≠ src := fun he => by rw [he, hsrc] at hh; exact Option.noConfusion hh
  have hget : ∀ h2 m2, setH (setH s.handles src (some ⟨0, 0⟩)) h (some m) h2 = some m2 →
      (h2 = h ∧ m2 = m) ∨ (h2 ≠ h ∧ h2 = src ∧ m2 = ⟨0, 0⟩) ∨
      (h2 ≠ h ∧ h2 ≠ src ∧ s.handles h2 = some m2) := by
    intro h2 m2 hm
    by_cases he1 : h2 = h
    · subst he1
      rw [setH_same] at hm
      injection hm with hm
      exact Or.inl ⟨rfl, hm.symm⟩
    · rw [setH_ne _ _ _ _ he1] at hm
      by_cases he2 : h2 = src
      · subst he2
        rw [setH_same] at hm
        injection hm with hm
        exact Or.inr (Or.inl ⟨he1, rfl, hm.symm⟩)
      · rw [setH_ne _ _ _ _ he2] at hm
        exact Or.inr (Or.inr ⟨he1, he2, hm⟩)
  refine ⟨i1, ?_, ?_, ?_, i5, i6⟩
  · intro h2 m2 hm
    rcases hget h2 m2 hm with ⟨_, hm2⟩ | ⟨_, _, hm2⟩ | ⟨_, _, hm2⟩
    · rw [hm2]
      exact i2 src m hsrc
    · subst hm2
      simp only [memory_offset_mk]
      omega
    · exact i2 h2 m2 hm2
  · intro h2 m2 hm hnz
    rcases hget h2 m2 hm with ⟨_, hm2⟩ | ⟨_, _, hm2⟩ | ⟨_, _, hm2⟩
    · rw [hm2] at hnz ⊢
      exact i3 src m hsrc hnz
    · subst hm2
      simp only [memory_offset_mk] at hnz
      exact absurd rfl hnz
    · exact i3 h2 m2 hm2 hnz
  · intro h1 h2 m1 m2 hm1 hm2 hnz heq
    rcases hget h1 m1 hm1 with ⟨he1, hv1⟩ | ⟨_, he1, hv1⟩ | ⟨hne1, hns1, hv1⟩ <;>
      rcases hget h2 m2 hm2 with ⟨he2, hv2⟩ | ⟨_, he2, hv2⟩ | ⟨hne2, hns2, hv2⟩
    · rw [he1, he2]
    · subst hv2
      simp only [memory_offset_mk] at heq
      exact absurd heq hnz
    · rw [← hv1] at hsrc
      have := i4 src h2 m1 m2 hsrc hv2 hnz heq
      exact absurd this.symm hns2
    · subst hv1
      simp only [memory_offset_mk] at hnz
      exact absurd rfl hnz
    · rw [he1, he2]
    · subst hv1
      simp only [memory_offset_mk] at hnz
      exact absurd rfl hnz
    · rw [← hv2] at hsrc
      have := i4 h1 src m1 m2 hv1 hsrc hnz heq
      exact absurd this hns1
    · subst hv2
      simp only [memory_offset_mk] at heq
      exact absurd heq hnz
    · exact i4 h1 h2 m1 m2 hv1 hv2 hnz heq

/-- Move assignment between distinct live `Memory` objects preserves the
invariant. -/
theorem memInv_moveAssign {s : MemState} (dst src : Nat) (md ms : Memory) (hi : MemInv s)
    (hne : dst ≠ src) (hdst : s.handles dst = some md) (hsrc : s.handles src = some ms) :
    MemInv ⟨setH (setH s.handles src (some ⟨0, 0⟩)) dst (some ms), s.nextOff,
      if md.offset = 0 then s.freed else md.offset :: s.freed⟩ := by
  obtain ⟨i1, i2, i3, i4, i5, i6⟩ := hi
  unfold MemInv
  dsimp only
  have hget : ∀ h2 m2, setH (setH s.handles src (some ⟨0, 0⟩)) dst (some ms) h2 = some m2 →
      (h2 = dst ∧ m2 = ms) ∨ (h2 ≠ dst ∧ h2 = src ∧ m2 = ⟨0, 0⟩) ∨
      (h2 ≠ dst ∧ h2 ≠ src ∧ s.handles h2 = some m2) := by
    intro h2 m2 hm
    by_cases he1 : h2 = dst
    · subst he1
      rw [setH_same] at hm
      injection hm with hm
      exact Or.inl ⟨rfl, hm.symm⟩
    · rw [setH_ne _ _ _ _ he1] at hm
      by_cases he2 : h2 = src
      · subst he2
        rw [setH_same] at hm
        injection hm with hm
        exact Or.inr (Or.inl ⟨he1, rfl, hm.symm⟩)
      · rw [setH_ne _ _ _ _ he2] at hm
        exact Or.inr (Or.inr ⟨he1, he2, hm⟩)
  have hcount : ∀ o : Nat,
      (if md.offset = 0 then s.freed else md.offset :: s.freed).count o
        = s.freed.count o + if md.offset ≠ 0 ∧ o = md.offset then 1 else 0 := by
    intro o
    by_cases hmd : md.offset = 0
    · simp [hmd]
    · rw [if_neg hmd, count_cons_nat]
      by_cases ho : o = md.offset
      · rw [if_pos ho, if_pos ⟨hmd, ho⟩]
      · rw [if_neg ho, if_neg (fun hx => ho hx.2)]
  refine ⟨i1, ?_, ?_, ?_, ?_, ?_⟩
  · intro h2 m2 hm
    rcases hget h2 m2 hm with ⟨_, hm2⟩ | ⟨_, _, hm2⟩ | ⟨_, _, hm2⟩
    · rw [hm2]
      exact i2 src ms hsrc
    · subst hm2
      simp only [memory_offset_mk]
      omega
    · exact i2 h2 m2 hm2
  · intro h2 m2 hm hnz
    rw [hcount]
    rcases hget h2 m2 hm with ⟨_, hm2⟩ | ⟨_, _, hm2⟩ | ⟨hnd, hns, hm2⟩
    · rw [hm2] at hnz ⊢
      have hz := i3 src ms hsrc hnz
      have hdiff : ¬ (md.offset ≠ 0 ∧ ms.offset = md.offset) := by
        rintro ⟨hmd, he⟩
        exact hne (i4 dst src md ms hdst hsrc hmd he.symm)
      rw [hz, if_neg hdiff]
    · subst hm2
      simp only [memory_offset_mk] at hnz
      exact absurd rfl hnz
    · have hz := i3 h2 m2 hm2 hnz
      have hdiff : ¬ (md.offset ≠ 0 ∧ m2.offset = md.offset) := by
        rintro ⟨hmd, he⟩
        exact hnd (i4 h2 dst m2 md hm2 hdst hnz he)
      rw [hz, if_neg hdiff]
  · intro h1 h2 m1 m2 hm1 hm2 hnz heq
    rcases hget h1 m1 hm1 with ⟨he1, hv1⟩ | ⟨_, he1, hv1⟩ | ⟨hne1, hns1, hv1⟩ <;>
      rcases hget h2 m2 hm2 with ⟨he2, hv2⟩ | ⟨_, he2, hv2⟩ | ⟨hne2, hns2, hv2⟩
    · rw [he1, he2]
    · subst hv2
      simp only [memory_offset_mk] at heq
      exact absurd heq hnz
    · rw [← hv1] at hsrc
      have := i4 src h2 m1 m2 hsrc hv2 hnz heq
      exact absurd this.symm hns2
    · subst hv1
      simp only [memory_offset_mk] at hnz
      exact absurd rfl hnz
    · rw [he1, he2]
    · subst hv1
      simp only [memory_offset_mk] at hnz
      exact absurd rfl hnz
    · rw [← hv2] at hsrc
      have := i4 h1 src m1 m2 hv1 hsrc hnz heq
      exact absurd this hns1
    · subst hv2
      simp only [memory_offset_mk] at heq
      exact absurd heq hnz
    · exact i4 h1 h2 m1 m2 hv1 hv2 hnz heq
  · intro o ho hlt
    rw [hcount]
    by_cases hcase : md.offset ≠ 0 ∧ o = md.offset
    · rw [if_pos hcase]
      have hz := i3 dst md hdst hcase.1
      rw [hcase.2, hz]
    · rw [if_neg hcase]
      have := i5 o ho hlt
      omega
  · intro o ho
    rw [hcount]
    have hmd := i2 dst md hdst
    have hdiff : ¬ (md.offset ≠ 0 ∧ o = md.offset) := by
      rintro ⟨_, he⟩
      omega
    rw [if_neg hdiff, i6 o ho]

/-- Destructing a live `Memory` object preserves the invariant. -/
theorem memInv_destruct {s : MemState} (h : Nat) (m : Memory) (hi : MemInv s)
    (hh : s.handles h = some m) :
    MemInv ⟨setH s.handles h none, s.nextOff, m.offset :: s.freed⟩ := by
  obtain ⟨i1, i2, i3, i4, i5, i6⟩ := hi
  unfold MemInv
  dsimp only
  have hget : ∀ h2 m2, setH s.handles h none h2 = some m2 →
      h2 ≠ h ∧ s.handles h2 = some m2 := by
    intro h2 m2 hm
    by_cases he : h2 = h
    · subst he
      rw [setH_same] at hm
      exact Option.noConfusion hm
    · rw [setH_ne _ _ _ _ he] at hm
      exact ⟨he, hm⟩
  refine ⟨i1, ?_, ?_, ?_, ?_, ?_⟩
  · intro h2 m2 hm
    exact i2 h2 m2 (hget h2 m2 hm).2
  · intro h2 m2 hm hnz
    obtain ⟨hne2, hm2⟩ := hget h2 m2 hm
    rw [count_cons_nat]
    have hz := i3 h2 m2 hm2 hnz
    have hdiff : ¬ m2.offset = m.offset := by
      intro he
      by_cases hmz : m.offset = 0
      · rw [hmz] at he
        exact hnz he
      · exact hne2 (i4 h2 h m2 m hm2 hh hnz he)
    rw [hz, if_neg hdiff]
  · intro h1 h2 m1 m2 hm1 hm2 hnz heq
    exact i4 h1 h2 m1 m2 (hget h1 m1 hm1).2 (hget h2 m2 hm2).2 hnz heq
  · intro o ho hlt
    rw [count_cons_nat]
    by_cases he : o = m.offset
    · rw [if_pos he]
      have hz := i3 h m hh (he ▸ ho)
      rw [he, hz]
    · rw [if_neg he]
      have := i5 o ho hlt
      omega
  · intro o ho
    rw [count_cons_nat]
    have hmo := i2 h m hh
    have hdiff : ¬ o = m.offset := by omega
    rw [if_neg hdiff, i6 o ho]

/-- One machine step preserves the ownership invariant. -/
theorem memStep_inv {s s1 : MemState} {e : MemEvent} (hi : MemInv s)
    (hstep : memStep s e = some s1) : MemInv s1 := by
  cases e with
  | construct h size =>
    simp only [memStep] at hstep
    cases hh : s.handles h with
    | some m =>
      rw [hh] at hstep
      exact Option.noConfusion hstep
    | none =>
      rw [hh] at hstep
      injection hstep with hstep
      subst hstep
      exact memInv_construct h size hi
  | moveConstruct h src =>
    simp only [memStep] at hstep
    cases hh : s.handles h with
    | some m =>
      rw [hh] at hstep
      cases hsrc : s.handles src <;> rw [hsrc] at hstep <;> exact Option.noConfusion hstep
    | none =>
      rw [hh] at hstep
      cases hsrc : s.handles src with
      | none =>
        rw [hsrc] at hstep
        exact Option.noConfusion hstep
      | some m =>
        rw [hsrc] at hstep
        injection hstep with hstep
        subst hstep
        exact memInv_moveConstruct h src m hi hh hsrc
  | moveAssign dst src =>
    simp only [memStep] at hstep
    by_cases hds : dst = src
    · rw [if_pos hds] at hstep
      cases hd : s.handles dst with
      | none =>
        rw [hd] at hstep
        exact Option.noConfusion hstep
      | some m =>
        rw [hd] at hstep
        injection hstep with hstep
        subst hstep
        exact hi
    · rw [if_neg hds] at hstep
      cases hd : s.handles dst with
      | none =>
        rw [hd] at hstep
        cases hs2 : s.handles src <;> rw [hs2] at hstep <;> exact Option.noConfusion hstep
      | some md =>
        rw [hd] at hstep
        cases hs2 : s.handles src with
        | none =>
          rw [hs2] at hstep
          exact Option.noConfusion hstep
        | some ms =>
          rw [hs2] at hstep
          injection hstep with hstep
          subst hstep
          exact memInv_moveAssign dst src md ms hi hds hd hs2
  | destruct h =>
    simp only [memStep] at hstep
    cases hh : s.handles h with
    | none =>
      rw [hh] at hstep
      exact Option.noConfusion hstep
    | some m =>
      rw [hh] at hstep
      injection hstep with hstep
      subst hstep
      exact memInv_destruct h m hi hh

/-- Any run from an invariant state ends in an invariant state. -/
theorem memRun_inv : ∀ (evs : List MemEvent) (s s1 : MemState),
    MemInv s → memRun s evs = some s1 → MemInv s1 := by
  intro evs
  induction evs with
  | nil =>
    intro s s1 hi hrun
    simp only [memRun] at hrun
    injection hrun with hrun
    subst hrun
    exact hi
  | cons e es ih =>
    intro s s1 hi hrun
    simp only [memRun] at hrun
    cases hst : memStep s e with
    | none =>
      rw [hst] at hrun
      exact Option.noConfusion hrun
    | some s2 =>
      rw [hst] at hrun
      exact ih s2 s1 (memStep_inv hi hst) hrun

/-- C1: over any well-formed sequence of `Memory` constructions, moves and
destructions starting from the initial state, `extism_free` is invoked at
most once for each offset handed out by `extism_alloc` (the offsets
`1 ≤ o < nextOff`), and both move construction and move assignment clear
the source handle's `offset` and `length` to 0. -/
theorem memory_free_at_most_once :
    (∀ (evs : List MemEvent) (s1 : MemState), memRun memInit evs = some s1 →
      ∀ o, o ≠ 0 → o < s1.nextOff → s1.freed.count o ≤ 1) ∧
    (∀ (s : MemState) (h src : Nat) (s1 : MemState),
      memStep s (.moveConstruct h src) = some s1 → s1.handles src = some ⟨0, 0⟩) ∧
    (∀ (s : MemState) (dst src : Nat) (s1 : MemState), dst ≠ src →
      memStep s (.moveAssign dst src) = some s1 → s1.handles src = some ⟨0, 0⟩) := by
  refine ⟨?_, ?_, ?_⟩
  · intro evs s1 hrun o ho hlt
    obtain ⟨_, _, _, _, i5, _⟩ := memRun_inv evs memInit s1 memInv_init hrun
    exact i5 o ho hlt
  · intro s h src s1 hstep
    simp only [memStep] at hstep
    cases hh : s.handles h with
    | some m =>
      rw [hh] at hstep
      cases hsrc : s.handles src <;> rw [hsrc] at hstep <;> exact Option.noConfusion hstep
    | none =>
      rw [hh] at hstep
      cases hsrc : s.handles src with
      | none =>
        rw [hsrc] at hstep
        exact Option.noConfusion hstep
      | some m =>
        rw [hsrc] at hstep
        injection hstep with hstep
        subst hstep
        have hne : src ≠ h := fun he => by rw [← he, hsrc] at hh; exact Option.noConfusion hh
        dsimp only
        rw [setH_ne _ _ _ _ hne, setH_same]
  · intro s dst src s1 hne hstep
    simp only [memStep] at hstep
    rw [if_neg hne] at hstep
    cases hd : s.handles dst with
    | none =>
      rw [hd] at hstep
      cases hs2 : s.handles src <;> rw [hs2] at hstep <;> exact Option.noConfusion hstep
    | some md =>
      rw [hd] at hstep
      cases hs2 : s.handles src with
      | none =>
        rw [hs2] at hstep
        exact Option.noConfusion hstep
      | some ms =>
        rw [hs2] at hstep
        injection hstep with hstep
        subst hstep
        dsimp only
        rw [setH_ne _ _ _ _ (Ne.symm hne), setH_same]

/-- Witness for C1: a run that allocates offset 1, moves it and destroys
both objects frees offset 1 exactly once, and concrete move steps clear
their source. -/
theorem memory_free_at_most_once_witness :
    (∃ s1, memRun memInit
        [.construct 0 3, .moveConstruct 1 0, .destruct 0, .destruct 1] = some s1 ∧
      s1.freed.count 1 ≤ 1) ∧
    (∃ s2, memStep ⟨setH (fun _ => none) 0 (some ⟨1, 3⟩), 2, []⟩ (.moveConstruct 1 0)
        = some s2 ∧ s2.handles 0 = some ⟨0, 0⟩) ∧
    (∃ s3, memStep ⟨setH (setH (fun _ => none) 0 (some ⟨1, 3⟩)) 1 (some ⟨2, 4⟩), 3, []⟩
        (.moveAssign 0 1) = some s3 ∧ s3.handles 1 = some ⟨0, 0⟩) := by
  refine ⟨⟨_, rfl, ?_⟩, ⟨_, rfl, ?_⟩, ⟨_, rfl, ?_⟩⟩
  · exact memory_free_at_most_once.1
      [.construct 0 3, .moveConstruct 1 0, .destruct 0, .destruct 1] _ rfl 1
      (by decide) (by decide)
  · exact memory_free_at_most_once.2.1 ⟨setH (fun _ => none) 0 (some ⟨1, 3⟩), 2, []⟩ 1 0 _ rfl
  · exact memory_free_at_most_once.2.2
      ⟨setH (setH (fun _ => none) 0 (some ⟨1, 3⟩)) 1 (some ⟨2, 4⟩), 3, []⟩ 0 1 _
      (by decide) rfl

end Extism
